import Mathlib

/-!
Verification of the grouped-bar chart data pipeline
(`src/charts/grouped-bar.js`, shipped in this tree inside
`src/src/tasks/js-doc.js` after the grunt task preamble).

JavaScript numbers are modelled as exact rationals (`ℚ`); all the
arithmetic relevant to the claims is exact.  A JavaScript value that may
be absent is modelled as an `Option`.  Each definition carries a pointer
to the source lines it embeds.
-/

namespace GroupedBar

/-- A normalized data record as produced by `cleanData`: a category name,
a group key and a numeric value (fields `name`, `group`, `value` of the
source records). -/
structure Record where
  name : String
  group : String
  value : ℚ
deriving DecidableEq

/-- The chart margin object (source lines 90-95, defaults 40/30/60/70). -/
structure Margin where
  top : ℚ
  right : ℚ
  bottom : ℚ
  left : ℚ
deriving DecidableEq

/-- Source line 44-45:
`const uniq = (arrArg) => arrArg.filter((elem, pos, arr) => arr.indexOf(elem) == pos)`.
An element is kept exactly at the position of its first occurrence. -/
def uniq {α : Type} [DecidableEq α] (l : List α) : List α :=
  (l.enum.filter (fun p => l.indexOf p.2 == p.1)).map Prod.snd

/-- Canonical first-seen deduplication, written as the spec describes it
("preserving first-seen order (deduplicated, not sorted)").  Used to state
that the source's `uniq` realises exactly this order. -/
def firstSeen {α : Type} [DecidableEq α] : List α → List α
  | [] => []
  | x :: xs => x :: (firstSeen xs).filter (· != x)

lemma enumFrom_succ_eq_map {α : Type} (xs : List α) (n : ℕ) :
    xs.enumFrom (n + 1) = (xs.enumFrom n).map (fun p => (p.1 + 1, p.2)) := by
  induction xs generalizing n with
  | nil => rfl
  | cons a as ih => simp [List.enumFrom_cons, ih]

lemma uniq_nil {α : Type} [DecidableEq α] : uniq ([] : List α) = [] := rfl

lemma uniq_cons {α : Type} [DecidableEq α] (x : α) (xs : List α) :
    uniq (x :: xs) = x :: (uniq xs).filter (· != x) := by
  unfold uniq
  have henum : (x :: xs).enum = (0, x) :: (xs.enum.map (fun p => (p.1 + 1, p.2))) := by
    rw [List.enum_cons]
    congr 1
    simpa using enumFrom_succ_eq_map xs 0
  rw [henum]
  rw [List.filter_cons]
  have h0 : (List.indexOf ((0, x) : ℕ × α).2 (x :: xs) == ((0, x) : ℕ × α).1) = true := by
    simp [List.indexOf_cons]
  rw [h0]
  simp only [if_true, cond_true, List.map_cons]
  congr 1
  rw [List.filter_map, List.filter_map, List.filter_filter, List.map_map]
  have hfun : (Prod.snd ∘ fun p : ℕ × α => (p.1 + 1, p.2)) = (Prod.snd : ℕ × α → α) := rfl
  rw [hfun]
  apply congrArg
  apply List.filter_congr
  intro p _
  by_cases hax : x = p.2
  · subst hax
    simp only [Function.comp_apply, List.indexOf_cons, beq_self_eq_true, cond_true,
      bne_self_eq_false, Bool.false_and]
    simp
  · have hbeq : (x == p.2) = false := by simpa using hax
    have hbeq2 : (p.2 != x) = true := by
      simp only [bne_iff_ne, ne_eq]
      exact fun h => hax h.symm
    simp only [Function.comp_apply, List.indexOf_cons, hbeq, cond_false, hbeq2, Bool.true_and]
    rw [show (List.indexOf p.2 xs + 1 == p.1 + 1) = (List.indexOf p.2 xs == p.1) by
      by_cases h : List.indexOf p.2 xs = p.1 <;> simp [h]]

lemma uniq_eq_firstSeen {α : Type} [DecidableEq α] (l : List α) :
    uniq l = firstSeen l := by
  induction l with
  | nil => rfl
  | cons x xs ih => rw [uniq_cons, firstSeen, ih]

lemma mem_firstSeen {α : Type} [DecidableEq α] {a : α} {l : List α} :
    a ∈ firstSeen l ↔ a ∈ l := by
  induction l with
  | nil => simp [firstSeen]
  | cons x xs ih =>
    simp only [firstSeen, List.mem_cons, List.mem_filter]
    constructor
    · rintro (rfl | ⟨h, _⟩)
      · exact .inl rfl
      · exact .inr (ih.mp h)
    · rintro (rfl | h)
      · exact .inl rfl
      · by_cases hax : a = x
        · exact .inl hax
        · refine .inr ⟨ih.mpr h, ?_⟩
          simpa [bne] using hax

lemma nodup_firstSeen {α : Type} [DecidableEq α] (l : List α) :
    (firstSeen l).Nodup := by
  induction l with
  | nil => simp [firstSeen]
  | cons x xs ih =>
    rw [firstSeen]
    refine List.Nodup.cons ?_ (ih.filter _)
    intro hmem
    rcases List.mem_filter.mp hmem with ⟨_, hne⟩
    simp [bne] at hne

lemma count_firstSeen_eq_one {α : Type} [DecidableEq α] {a : α} {l : List α}
    (h : a ∈ l) : (firstSeen l).count a = 1 :=
  List.count_eq_one_of_mem (nodup_firstSeen l) (mem_firstSeen.mpr h)

lemma length_uniq_eq_card {α : Type} [DecidableEq α] (l : List α) :
    (uniq l).length = l.toFinset.card := by
  rw [uniq_eq_firstSeen]
  have h1 : (firstSeen l).toFinset.card = (firstSeen l).length :=
    List.toFinset_card_of_nodup (nodup_firstSeen l)
  have h2 : (firstSeen l).toFinset = l.toFinset := by
    ext a
    simp [List.mem_toFinset, mem_firstSeen]
  rw [← h1, h2]

/-- JavaScript object assignment `m[k] = v` on a string-keyed object,
modelled as an association list: an existing key is overwritten in place,
a new key is appended. -/
def objUpsert {β : Type} (m : List (String × β)) (k : String) (v : β) : List (String × β) :=
  if m.any (fun p => p.1 == k) then
    m.map (fun p => if p.1 == k then (k, v) else p)
  else m ++ [(k, v)]

/-- JavaScript object lookup `m[k]`; `none` models `undefined`. -/
def objGet {β : Type} (m : List (String × β)) (k : String) : Option β :=
  (m.find? (fun p => p.1 == k)).map Prod.snd

/-- The rollup of `prepareData` (source lines 862-874): for the records of
one category, build the group→value object.  `if (entry && entry[groupLabel])`
skips records whose group key is falsy (the empty string); a later record
for the same group overwrites the earlier one. -/
def rollupMap (values : List Record) : List (String × ℚ) :=
  values.foldl (fun m r => if r.group ≠ "" then objUpsert m r.group r.value else m) []

/-- `sum(permute(obj, keys))` (source line 880): `permute` reads `obj[g]`
for each key (possibly `undefined`), and `d3.sum` skips entries that are
not numbers, so a missing group contributes nothing. -/
def d3sum (l : List (Option ℚ)) : ℚ := (l.filterMap id).sum

/-- One layer of the transformed data (source lines 876-885): the category
key, the computed total, the category's records in input order, and the
group→value object of the rollup. -/
structure Layer where
  key : String
  total : ℚ
  values : List Record
  groupMap : List (String × ℚ)
deriving DecidableEq

/-- Per-group value lookup on a layer (reading `item[groupKey]`). -/
def Layer.groupValue (L : Layer) (g : String) : Option ℚ := objGet L.groupMap g

/-- The discovered canonical group order: `groups = uniq(data.map(getGroup))`
(source line 858). -/
def groupsOf (data : List Record) : List String := uniq (data.map Record.group)

/-- `nest().key(getName).entries(data)` (source lines 860-875): d3-nest
buckets the records by key in first-seen key order, each bucket keeping
the original record order. -/
def nestEntries (data : List Record) : List (String × List Record) :=
  (uniq (data.map Record.name)).map (fun k => (k, data.filter (fun r => r.name == k)))

/-- One entry of `prepareData`'s output (source lines 876-885), with
`total: sum(permute(data.value, groups))`. -/
def mkLayer (groups : List String) (k : String) (values : List Record) : Layer :=
  { key := k
    values := values
    groupMap := rollupMap values
    total := d3sum (groups.map (objGet (rollupMap values))) }

/-- The full grouping step `prepareData` (source lines 857-886), producing
one layer per distinct category. -/
def layersOf (data : List Record) : List Layer :=
  (nestEntries data).map (fun p => mkLayer (groupsOf data) p.1 p.2)

/-- The end-to-end example dataset of the spec:
`[{name:"A",group:"X",value:0}, {name:"A",group:"Y",value:0}, {name:"B",group:"X",value:10}]`. -/
def exData : List Record :=
  [⟨"A", "X", 0⟩, ⟨"A", "Y", 0⟩, ⟨"B", "X", 10⟩]

lemma d3sum_eq_sum_getD (l : List (Option ℚ)) :
    d3sum l = (l.map (fun o => o.getD 0)).sum := by
  induction l with
  | nil => rfl
  | cons o l ih =>
    simp only [d3sum] at ih ⊢
    cases o <;> simp [List.filterMap_cons, List.sum_cons, ih]

lemma layersOf_exData_eq :
    layersOf exData =
      [mkLayer (groupsOf exData) "A" (exData.filter (fun r => r.name == "A")),
       mkLayer (groupsOf exData) "B" (exData.filter (fun r => r.name == "B"))] := rfl

/-- **C1** — For every category, the Layer total produced by the grouping
step equals the sum, over the canonical first-seen group order, of that
category's per-group value with 0 substituted for groups absent from that
category; on the spec's example dataset the discovered groups are
`["X","Y"]`, the layer keys `["A","B"]`, Layer A's total 0 and Layer B's
total 10.  (The hypothesis that no group is literally named `"values"`
marks a modelling boundary: the source rollup object additionally stores
the record list under the key `values`, which `permute` would read back
for a group of that exact name.) -/
theorem layer_total_eq_sum_over_groups :
    (∀ (data : List Record) (L : Layer), L ∈ layersOf data →
      "values" ∉ groupsOf data →
      L.total = ((groupsOf data).map (fun g => (L.groupValue g).getD 0)).sum) ∧
    groupsOf exData = ["X", "Y"] ∧
    (layersOf exData).map Layer.key = ["A", "B"] ∧
    (layersOf exData).map Layer.total = [0, 10] := by
  refine ⟨?_, by decide, by decide, ?_⟩
  · intro data L hL _
    rcases List.mem_map.mp hL with ⟨p, _, rfl⟩
    show d3sum ((groupsOf data).map (objGet (rollupMap p.2))) = _
    rw [d3sum_eq_sum_getD, List.map_map]
    rfl
  · simp only [layersOf_exData_eq,
      show groupsOf exData = ["X", "Y"] from rfl,
      show exData.filter (fun r => r.name == "A") =
        [⟨"A", "X", (0:ℚ)⟩, ⟨"A", "Y", 0⟩] from rfl,
      show exData.filter (fun r => r.name == "B") = [⟨"B", "X", (10:ℚ)⟩] from rfl,
      mkLayer, List.map_cons, List.map_nil,
      show rollupMap [⟨"A", "X", (0:ℚ)⟩, ⟨"A", "Y", 0⟩] = [("X", 0), ("Y", 0)] from rfl,
      show rollupMap [⟨"B", "X", (10:ℚ)⟩] = [("X", 10)] from rfl]
    simp [objGet, d3sum]

/-- Witness for `layer_total_eq_sum_over_groups` at the example dataset's
first layer. -/
theorem layer_total_eq_sum_over_groups_witness :
    (mkLayer (groupsOf exData) "A" (exData.filter (fun r => r.name == "A"))).total
      = ((groupsOf exData).map
          (fun g => ((mkLayer (groupsOf exData) "A"
            (exData.filter (fun r => r.name == "A"))).groupValue g).getD 0)).sum :=
  layer_total_eq_sum_over_groups.1 exData _
    (by rw [layersOf_exData_eq]; exact List.mem_cons_self _ _)
    (by decide)

/-- **C7** — the number of Layers equals the number of distinct category
keys and the Layers appear in first-seen category order; the discovered
group list contains every distinct group key exactly once, in first-seen
order (deduplicated, not sorted). -/
theorem layers_count_and_first_seen_order :
    ∀ data : List Record,
      (layersOf data).map Layer.key = firstSeen (data.map Record.name) ∧
      (layersOf data).length = (data.map Record.name).toFinset.card ∧
      groupsOf data = firstSeen (data.map Record.group) ∧
      (∀ g, g ∈ data.map Record.group → (groupsOf data).count g = 1) := by
  intro data
  refine ⟨?_, ?_, ?_, ?_⟩
  · rw [layersOf, List.map_map, ← uniq_eq_firstSeen, nestEntries, List.map_map]
    exact List.map_id'' (fun _ => rfl) _
  · rw [layersOf, List.length_map, nestEntries, List.length_map]
    exact length_uniq_eq_card _
  · exact uniq_eq_firstSeen _
  · intro g hg
    rw [groupsOf, uniq_eq_firstSeen]
    exact count_firstSeen_eq_one hg

/-- Witness for `layers_count_and_first_seen_order`: on the example
dataset the group `"X"` appears exactly once in the discovered group
list. -/
theorem layers_count_and_first_seen_order_witness :
    (groupsOf exData).count "X" = 1 :=
  (layers_count_and_first_seen_order exData).2.2.2 "X" (by decide)

/-- One step of `d3.max`: the first value seen becomes the running
maximum, a later value replaces it when strictly larger. -/
def d3maxStep (acc : Option ℚ) (v : ℚ) : Option ℚ :=
  match acc with
  | none => some v
  | some m => some (if m < v then v else m)

/-- `d3.max` (used at source line 837): running maximum of the values,
`undefined` (`none`) on an empty input. -/
def d3max (l : List ℚ) : Option ℚ := l.foldl d3maxStep none

/-- `getYMax` (source lines 829-839): reads the chart's cleaned records,
forms `new Set(data.map(getValue))` — the JavaScript `Set` is modelled by
`List.dedup` of the value list, of which only the size and the `has(0)`
test are consulted, so the dedup order is irrelevant — and returns 1 when
that set is exactly `{0}`, otherwise `max(data.map(getValue))`. -/
def getYMax (data : List Record) : Option ℚ :=
  let values := data.map Record.value
  let uniqueDataPoints := values.dedup
  let isAllZero := uniqueDataPoints.length == 1 && uniqueDataPoints.contains 0
  if isAllZero then some 1 else d3max values

lemma isAllZero_iff (vals : List ℚ) :
    (vals.dedup.length == 1 && vals.dedup.contains 0) = true ↔
      vals ≠ [] ∧ ∀ v ∈ vals, v = 0 := by
  rw [Bool.and_eq_true, beq_iff_eq]
  constructor
  · rintro ⟨hlen, hcont⟩
    obtain ⟨a, ha⟩ := List.length_eq_one.mp hlen
    have h0 : (0 : ℚ) ∈ vals.dedup := by
      simpa using hcont
    rw [ha] at h0
    have ha0 : a = 0 := by
      have := List.mem_singleton.mp h0
      exact this.symm
    refine ⟨?_, ?_⟩
    · intro hnil
      rw [hnil] at ha
      simp at ha
    · intro v hv
      have hvd : v ∈ vals.dedup := List.mem_dedup.mpr hv
      rw [ha, ha0] at hvd
      simpa using hvd
  · rintro ⟨hne, hall⟩
    have h0 : (0 : ℚ) ∈ vals := by
      obtain ⟨v, hv⟩ := List.exists_mem_of_ne_nil vals hne
      have := hall v hv
      rwa [this] at hv
    have hall' : ∀ x ∈ vals.dedup, x = 0 := fun x hx => hall x (List.mem_dedup.mp hx)
    have hmem0 : (0 : ℚ) ∈ vals.dedup := List.mem_dedup.mpr h0
    have hsingle : vals.dedup = [0] := by
      cases hd : vals.dedup with
      | nil => rw [hd] at hmem0; cases hmem0
      | cons a t =>
        have ha : a = 0 := hall' a (by rw [hd]; exact List.mem_cons_self a t)
        have ht : t = [] := by
          cases hb : t with
          | nil => rfl
          | cons b t2 =>
            have hb0 : b = 0 := hall' b (by
              rw [hd, hb]
              exact List.mem_cons_of_mem _ (List.mem_cons_self _ _))
            have hnd := List.nodup_dedup vals
            rw [hd, hb, ha, hb0] at hnd
            simp at hnd
        rw [ha, ht]
    rw [hsingle]
    simp

lemma d3max_go (l : List ℚ) (m : ℚ) :
    ∃ M, l.foldl d3maxStep (some m) = some M ∧ (M = m ∨ M ∈ l) ∧ m ≤ M ∧
      ∀ v ∈ l, v ≤ M := by
  induction l generalizing m with
  | nil => exact ⟨m, rfl, .inl rfl, le_refl m, by simp⟩
  | cons v l ih =>
    obtain ⟨M, hfold, hmem, hle, hub⟩ := ih (if m < v then v else m)
    have hmM : m ≤ M := le_trans (by split <;> [exact le_of_lt ‹_›; exact le_refl m]) hle
    have hvM : v ≤ M := le_trans (by split <;> [exact le_refl v; exact le_of_not_lt ‹_›]) hle
    refine ⟨M, hfold, ?_, hmM, ?_⟩
    · rcases hmem with h | h
      · by_cases hmv : m < v
        · rw [if_pos hmv] at h
          exact .inr (h ▸ List.mem_cons_self v l)
        · rw [if_neg hmv] at h
          exact .inl h
      · exact .inr (List.mem_cons_of_mem _ h)
    · intro w hw
      rcases List.mem_cons.mp hw with rfl | hw
      · exact hvM
      · exact hub w hw

lemma d3max_spec (l : List ℚ) (hne : l ≠ []) :
    ∃ M, d3max l = some M ∧ M ∈ l ∧ ∀ v ∈ l, v ≤ M := by
  cases l with
  | nil => exact absurd rfl hne
  | cons v l =>
    obtain ⟨M, hfold, hmem, hle, hub⟩ := d3max_go l v
    refine ⟨M, hfold, ?_, ?_⟩
    · rcases hmem with rfl | h
      · exact List.mem_cons_self _ _
      · exact List.mem_cons_of_mem _ h
    · intro w hw
      rcases List.mem_cons.mp hw with rfl | hw
      · exact hle
      · exact hub w hw

/-- **C2 counterexample** — the claimed biconditional fails on the code:
a dataset whose single record has value 1 gets upper bound 1 (through
the maximum branch) although not every record's value is 0; and the
empty dataset (where "every record's value is exactly 0" holds
vacuously) yields `undefined`, not 1. -/
theorem getYMax_iff_counterexample :
    (getYMax [⟨"A", "X", 1⟩] = some 1 ∧
      ¬ (∀ r ∈ [(⟨"A", "X", 1⟩ : Record)], r.value = 0)) ∧
      getYMax [] = none := by
  refine ⟨⟨rfl, ?_⟩, rfl⟩
  intro h
  have h1 := h ⟨"A", "X", 1⟩ (List.mem_cons_self _ _)
  have h2 : (⟨"A", "X", 1⟩ : Record).value = 1 := rfl
  rw [h2] at h1
  norm_num at h1

/-- **C2 (amended)** — for every *nonempty* dataset, the magnitude-scale
domain upper bound computed by `getYMax` is 1 *if* every record's value
is exactly 0, and otherwise is the true maximum observed value (which
can itself be 1, so the original "only if" fails; the empty dataset
yields `undefined` rather than 1); in particular three records all of
value 0 yield bound 1, and records with values `[0, 5, 3]` yield
bound 5. -/
theorem getYMax_spec :
    (∀ data : List Record, data ≠ [] →
      ((∀ r ∈ data, r.value = 0) → getYMax data = some 1) ∧
      (¬ (∀ r ∈ data, r.value = 0) →
        ∃ M, getYMax data = some M ∧ M ∈ data.map Record.value ∧
          ∀ r ∈ data, r.value ≤ M)) ∧
    getYMax [⟨"A", "X", 0⟩, ⟨"A", "Y", 0⟩, ⟨"B", "X", 0⟩] = some 1 ∧
    getYMax [⟨"A", "X", 0⟩, ⟨"A", "Y", 5⟩, ⟨"B", "X", 3⟩] = some 5 := by
  refine ⟨?_, rfl, rfl⟩
  intro data hne
  have hvals : data.map Record.value ≠ [] := by
    simpa using hne
  have hiff : (∀ r ∈ data, r.value = 0) ↔
      (∀ v ∈ data.map Record.value, v = 0) := by
    constructor
    · intro hall v hv
      obtain ⟨r, hr, rfl⟩ := List.mem_map.mp hv
      exact hall r hr
    · intro hall r hr
      exact hall _ (List.mem_map_of_mem _ hr)
  constructor
  · intro hall
    rw [getYMax]
    simp only [if_pos ((isAllZero_iff _).mpr ⟨hvals, hiff.mp hall⟩)]
  · intro hnall
    rw [getYMax]
    have hcond : ((data.map Record.value).dedup.length == 1 &&
        (data.map Record.value).dedup.contains 0) = false := by
      by_contra h
      exact hnall (hiff.mpr ((isAllZero_iff _).mp (Bool.of_not_eq_false h)).2)
    simp only [hcond, Bool.false_eq_true, if_false]
    obtain ⟨M, h1, h2, h3⟩ := d3max_spec _ hvals
    refine ⟨M, h1, h2, ?_⟩
    intro r hr
    exact h3 _ (List.mem_map_of_mem _ hr)

/-- Witness for `getYMax_spec`: on the dataset with values `[0, 5, 3]`
the bound is the true maximum observed value. -/
theorem getYMax_spec_witness :
    ∃ M, getYMax [⟨"A", "X", 0⟩, ⟨"A", "Y", 5⟩, ⟨"B", "X", 3⟩] = some M ∧
      M ∈ ([⟨"A", "X", 0⟩, ⟨"A", "Y", 5⟩, ⟨"B", "X", 3⟩] : List Record).map Record.value ∧
      ∀ r ∈ ([⟨"A", "X", 0⟩, ⟨"A", "Y", 5⟩, ⟨"B", "X", 3⟩] : List Record), r.value ≤ M :=
  (getYMax_spec.1 [⟨"A", "X", 0⟩, ⟨"A", "Y", 5⟩, ⟨"B", "X", 3⟩] (by simp)).2 (by
    intro h
    have h1 := h ⟨"A", "Y", 5⟩ (List.mem_cons_of_mem _ (List.mem_cons_self _ _))
    have h2 : (⟨"A", "Y", 5⟩ : Record).value = 5 := rfl
    rw [h2] at h1
    norm_num at h1)

/-- `d3.range(start, stop, step)` (d3-array): `n = max(0, ceil((stop -
start) / step))` values `start + i * step` for `i < n`. -/
def d3range (start stop step : ℚ) : List ℚ :=
  let n : ℤ := max 0 ⌈(stop - start) / step⌉
  (List.range n.toNat).map (fun i : ℕ => start + (i : ℚ) * step)

/-- Source lines 632-636: `animationDelays = range(animationDelayStep,
(layers.length + 1) * animationDelayStep, animationDelayStep)`. -/
def animationDelaysOf (data : List Record) (step : ℚ) : List ℚ :=
  d3range step (((layersOf data).length + 1 : ℚ) * step) step

/-- A dataset with three records (three bars) in a single category. -/
def exDataOneCategory : List Record :=
  [⟨"A", "X", 1⟩, ⟨"A", "Y", 2⟩, ⟨"A", "Z", 3⟩]

lemma layersOf_ne_nil (data : List Record) (hne : data ≠ []) :
    (layersOf data).length ≠ 0 := by
  cases data with
  | nil => exact absurd rfl hne
  | cons d ds =>
    rw [layersOf, List.length_map, nestEntries, List.length_map, List.map_cons,
      uniq_cons]
    simp

lemma animationDelaysOf_eq (data : List Record) (step : ℚ) (hstep : 0 < step) :
    animationDelaysOf data step
      = (List.range (layersOf data).length).map (fun i : ℕ => step + (i : ℚ) * step) := by
  rw [animationDelaysOf, d3range]
  have h1 : (((layersOf data).length + 1 : ℚ) * step - step) / step
      = ((layersOf data).length : ℚ) := by
    rw [add_mul, one_mul, add_sub_cancel_right]
    exact mul_div_cancel_right₀ _ (ne_of_gt hstep)
  rw [h1, Int.ceil_natCast]
  have h2 : max (0 : ℤ) ((layersOf data).length : ℤ) = ((layersOf data).length : ℤ) :=
    max_eq_right (Int.natCast_nonneg _)
  rw [h2, Int.toNat_natCast]

/-- **C3 counterexample** — on a non-empty dataset of 3 bars (one
category, three groups) with delay step 20, the code produces the delay
table `[20]`: its length is the number of layers (1), not the total bar
count plus 1 (4), and it is not `[20, 40, 60, 80]` as the claim's example
demands. -/
theorem animationDelays_counterexample :
    animationDelaysOf exDataOneCategory 20 = [20] ∧
      exDataOneCategory.length = 3 ∧
      (animationDelaysOf exDataOneCategory 20).length ≠ exDataOneCategory.length + 1 ∧
      animationDelaysOf exDataOneCategory 20 ≠ [20, 40, 60, 80] := by
  have hlen : (layersOf exDataOneCategory).length = 1 := rfl
  have h : animationDelaysOf exDataOneCategory 20 = [20] := by
    rw [animationDelaysOf_eq _ _ (by norm_num), hlen]
    norm_num [show List.range 1 = [0] from rfl]
  refine ⟨h, rfl, ?_, ?_⟩
  · rw [h]; simp [exDataOneCategory]
  · rw [h]; simp

/-- **C3 (amended)** — for any non-empty dataset and positive configured
delay step, the animation delay table is the strictly increasing sequence
`step, 2*step, ...` with constant increment `step`, starting at one step,
whose length equals the **number of layers (distinct categories)** — not
the total bar count plus 1 as originally claimed. -/
theorem animationDelays_spec (data : List Record) (step : ℚ)
    (hne : data ≠ []) (hstep : 0 < step) :
    animationDelaysOf data step
        = (List.range (layersOf data).length).map (fun i : ℕ => step + (i : ℚ) * step) ∧
      (animationDelaysOf data step).length = (layersOf data).length ∧
      (animationDelaysOf data step).head? = some step ∧
      List.Pairwise (· < ·) (animationDelaysOf data step) ∧
      List.Chain' (fun a b => b - a = step) (animationDelaysOf data step) := by
  have heq := animationDelaysOf_eq data step hstep
  refine ⟨heq, ?_, ?_, ?_, ?_⟩
  · rw [heq, List.length_map, List.length_range]
  · rw [heq]
    cases hL : (layersOf data).length with
    | zero => exact absurd hL (layersOf_ne_nil data hne)
    | succ n => simp [List.range_succ_eq_map]
  · rw [heq]
    refine List.Pairwise.map _ ?_ (List.pairwise_lt_range _)
    intro a b hab
    have : (a : ℚ) < (b : ℚ) := by exact_mod_cast hab
    have := mul_lt_mul_of_pos_right this hstep
    linarith
  · rw [heq, List.chain'_map]
    cases hL : (layersOf data).length with
    | zero => simp
    | succ n =>
      rw [List.chain'_range_succ]
      intro m _
      push_cast
      ring

/-- Witness for `animationDelays_spec` on a three-category dataset with
step 20 (the delay table is `[20, 40, 60]`). -/
theorem animationDelays_spec_witness :
    animationDelaysOf [⟨"A", "X", 1⟩, ⟨"B", "X", 2⟩, ⟨"C", "X", 3⟩] 20
      = (List.range (layersOf [⟨"A", "X", 1⟩, ⟨"B", "X", 2⟩, ⟨"C", "X", 3⟩]).length).map
          (fun i : ℕ => 20 + (i : ℚ) * 20) :=
  (animationDelays_spec [⟨"A", "X", 1⟩, ⟨"B", "X", 2⟩, ⟨"C", "X", 3⟩] 20
    (by simp) (by norm_num)).1

/-- A band scale as the hit-testers consume it: its position function and
its bandwidth (both read off the live d3 scale closed over by the
source functions). -/
structure BandFn where
  pos : String → ℚ
  bandwidth : ℚ

/-- JavaScript truthiness of a number: non-zero is truthy. -/
def jsTruthy (q : ℚ) : Bool := q != 0

/-- `Math.abs` applied to a boolean comparison result, as the source's
hit-test predicates do: the boolean is first coerced to `1`/`0`. -/
def mathAbsBool (b : Bool) : ℚ := |if b then (1 : ℚ) else 0|

/-- The per-record predicate of `getNearestDataPoint` (source lines
668-680), verbatim:
`Math.abs(adjustedMouseX >= xScale(d2[nameLabel]) + xScale2(d2[groupLabel])) &&
Math.abs(adjustedMouseX - xScale2(d2[groupLabel]) - xScale(d2[nameLabel]) <= epsilon)`
(with `d2[nameLabel]`/`d2[groupLabel]` the record's name/group fields). -/
def hitPredV (xScale xScale2 : BandFn) (adjX epsilon : ℚ) (d2 : Record) : Bool :=
  jsTruthy (mathAbsBool (decide (adjX ≥ xScale.pos d2.name + xScale2.pos d2.group))) &&
  jsTruthy (mathAbsBool (decide (adjX - xScale2.pos d2.group - xScale.pos d2.name ≤ epsilon)))

/-- `getNearestDataPoint` (source lines 662-690), vertical orientation:
adjust the pointer x by `margin.left`, set the tolerance to
`xScale2.bandwidth()`, collect each layer's first record satisfying the
hit predicate, and return the first collected record (`undefined`, here
`none`, when no layer has a match).  The source also copies `values` and
`key` onto the found record for the tooltip; those writes do not change
which record is returned and are not modelled. -/
def getNearestDataPoint (layers : List Layer) (xScale xScale2 : BandFn)
    (m : Margin) (mouseX : ℚ) : Option Record :=
  let adjustedMouseX := mouseX - m.left
  let epsilon := xScale2.bandwidth
  (layers.filterMap
    (fun data => data.values.find? (hitPredV xScale xScale2 adjustedMouseX epsilon))).head?

/-- The per-record predicate of `getNearestDataPoint2` (source lines
703-709), verbatim: `Math.abs(adjustedMouseY >= yScale(d2[nameLabel])) &&
Math.abs(adjustedMouseY - yScale(d2[nameLabel]) <= epsilon * 2)`. -/
def hitPredH (yScale : BandFn) (adjY epsilon : ℚ) (d2 : Record) : Bool :=
  jsTruthy (mathAbsBool (decide (adjY ≥ yScale.pos d2.name))) &&
  jsTruthy (mathAbsBool (decide (adjY - yScale.pos d2.name ≤ epsilon * 2)))

/-- `getNearestDataPoint2` (source lines 697-719), horizontal
orientation: adjust the pointer y by `margin.bottom`, set `epsilon` to
`yScale.bandwidth()`, collect each layer's first record satisfying the
hit predicate (tolerance `epsilon * 2`), and return the first collected
record, or `none`. -/
def getNearestDataPoint2 (layers : List Layer) (yScale : BandFn)
    (m : Margin) (mouseY : ℚ) : Option Record :=
  let adjustedMouseY := mouseY - m.bottom
  let epsilon := yScale.bandwidth
  (layers.filterMap
    (fun data => data.values.find? (hitPredH yScale adjustedMouseY epsilon))).head?

/-- The concatenation of the layers' record lists, in layer order. -/
def joinValues : List Layer → List Record
  | [] => []
  | L :: ls => L.values ++ joinValues ls

lemma head?_filterMap_find? (p : Record → Bool) (ls : List Layer) :
    (ls.filterMap (fun L => L.values.find? p)).head? = (joinValues ls).find? p := by
  induction ls with
  | nil => rfl
  | cons L ls ih =>
    rw [joinValues, List.find?_append, List.filterMap_cons]
    cases h : L.values.find? p with
    | none => simp [ih]
    | some r => simp

lemma jsTruthy_mathAbsBool (b : Bool) : jsTruthy (mathAbsBool b) = b := by
  cases b <;> simp [jsTruthy, mathAbsBool]

lemma hitPredV_eq (xScale xScale2 : BandFn) (adjX eps : ℚ) (d2 : Record) :
    hitPredV xScale xScale2 adjX eps d2
      = decide (xScale.pos d2.name + xScale2.pos d2.group ≤ adjX ∧
          adjX - (xScale.pos d2.name + xScale2.pos d2.group) ≤ eps) := by
  rw [hitPredV, jsTruthy_mathAbsBool, jsTruthy_mathAbsBool, ← Bool.decide_and]
  refine decide_eq_decide.mpr ?_
  constructor
  · rintro ⟨h1, h2⟩
    exact ⟨h1, by linarith⟩
  · rintro ⟨h1, h2⟩
    exact ⟨h1, by linarith⟩

lemma hitPredH_eq (yScale : BandFn) (adjY eps : ℚ) (d2 : Record) :
    hitPredH yScale adjY eps d2
      = decide (yScale.pos d2.name ≤ adjY ∧
          adjY - yScale.pos d2.name ≤ eps * 2) := by
  rw [hitPredH, jsTruthy_mathAbsBool, jsTruthy_mathAbsBool, ← Bool.decide_and]

/-- **C4** — vertical hit-testing: the result is the first record, in
layer-iteration order and stored record order, whose band position
(category position + group sub-position) is at most the pointer x
adjusted by the left margin, with distance from that position at most one
group bandwidth; with no match the result is the explicit `none`, and
only the left margin component matters. -/
theorem getNearestDataPoint_spec (layers : List Layer) (xScale xScale2 : BandFn)
    (m : Margin) (mouseX : ℚ) :
    (getNearestDataPoint layers xScale xScale2 m mouseX
      = (joinValues layers).find? (fun d2 => decide
          (xScale.pos d2.name + xScale2.pos d2.group ≤ mouseX - m.left ∧
            mouseX - m.left - (xScale.pos d2.name + xScale2.pos d2.group)
              ≤ xScale2.bandwidth))) ∧
    ((∀ d2 ∈ joinValues layers,
        ¬(xScale.pos d2.name + xScale2.pos d2.group ≤ mouseX - m.left ∧
          mouseX - m.left - (xScale.pos d2.name + xScale2.pos d2.group)
            ≤ xScale2.bandwidth)) →
      getNearestDataPoint layers xScale xScale2 m mouseX = none) ∧
    (∀ m2 : Margin, m2.left = m.left →
      getNearestDataPoint layers xScale xScale2 m2 mouseX
        = getNearestDataPoint layers xScale xScale2 m mouseX) := by
  have hmain : getNearestDataPoint layers xScale xScale2 m mouseX
      = (joinValues layers).find? (fun d2 => decide
          (xScale.pos d2.name + xScale2.pos d2.group ≤ mouseX - m.left ∧
            mouseX - m.left - (xScale.pos d2.name + xScale2.pos d2.group)
              ≤ xScale2.bandwidth)) := by
    rw [getNearestDataPoint]
    rw [show (hitPredV xScale xScale2 (mouseX - m.left) xScale2.bandwidth)
        = fun d2 => decide
            (xScale.pos d2.name + xScale2.pos d2.group ≤ mouseX - m.left ∧
              mouseX - m.left - (xScale.pos d2.name + xScale2.pos d2.group)
                ≤ xScale2.bandwidth) from funext fun d2 => hitPredV_eq _ _ _ _ d2]
    exact head?_filterMap_find? _ layers
  refine ⟨hmain, ?_, ?_⟩
  · intro hnone
    rw [hmain, List.find?_eq_none]
    intro d2 hd2
    simpa using hnone d2 hd2
  · intro m2 hleft
    simp only [getNearestDataPoint, hleft]

/-- Witness for `getNearestDataPoint_spec`: a pointer far to the left of
every band yields the explicit no-result. -/
theorem getNearestDataPoint_spec_witness :
    getNearestDataPoint [⟨"A", 0, [⟨"A", "X", 1⟩], []⟩]
        ⟨fun _ => 0, 10⟩ ⟨fun _ => 0, 10⟩ ⟨40, 30, 60, 70⟩ (-100) = none :=
  (getNearestDataPoint_spec [⟨"A", 0, [⟨"A", "X", 1⟩], []⟩]
      ⟨fun _ => 0, 10⟩ ⟨fun _ => 0, 10⟩ ⟨40, 30, 60, 70⟩ (-100)).2.1 (by
    intro d2 hd2
    have hd2' : d2 = ⟨"A", "X", 1⟩ := by
      simpa [joinValues] using hd2
    subst hd2'
    rintro ⟨h1, _⟩
    norm_num at h1)

/-- **C5 counterexample** — the horizontal hit-test tolerance is *twice*
the category bandwidth, not one bandwidth: with a category band at
position 0 of bandwidth 10, bottom margin 60 and pointer y 75 (adjusted
y 15), the code accepts the record at distance 15 > 10, while the
claim's one-bandwidth predicate matches nothing. -/
theorem getNearestDataPoint2_tolerance_counterexample :
    getNearestDataPoint2 [⟨"A", 0, [⟨"A", "X", 1⟩], []⟩]
        ⟨fun _ => 0, 10⟩ ⟨40, 30, 60, 70⟩ 75 = some ⟨"A", "X", 1⟩ ∧
      (joinValues [⟨"A", 0, [⟨"A", "X", 1⟩], []⟩]).find? (fun d2 => decide
          ((BandFn.mk (fun _ => 0) 10).pos d2.name ≤ 75 - (Margin.mk 40 30 60 70).bottom ∧
            75 - (Margin.mk 40 30 60 70).bottom - (BandFn.mk (fun _ => 0) 10).pos d2.name
              ≤ (BandFn.mk (fun _ => 0) 10).bandwidth)) = none := by
  constructor
  · rw [getNearestDataPoint2]
    simp only [List.filterMap_cons]
    rw [show List.find? (hitPredH ⟨fun _ => 0, 10⟩ (75 - (Margin.mk 40 30 60 70).bottom)
          (BandFn.mk (fun _ => 0) 10).bandwidth) [⟨"A", "X", 1⟩]
        = some ⟨"A", "X", 1⟩ from ?_]
    · rfl
    · rw [List.find?_cons]
      rw [show hitPredH ⟨fun _ => 0, 10⟩ (75 - (Margin.mk 40 30 60 70).bottom)
            (BandFn.mk (fun _ => 0) 10).bandwidth ⟨"A", "X", 1⟩ = true from ?_]
      rw [hitPredH_eq]
      refine decide_eq_true ?_
      norm_num
  · rw [List.find?_eq_none]
    intro d2 hd2
    have hd2' : d2 = ⟨"A", "X", 1⟩ := by
      simpa [joinValues] using hd2
    subst hd2'
    simp only [decide_eq_true_eq]
    rintro ⟨_, h2⟩
    norm_num at h2

/-- **C5 (amended)** — horizontal hit-testing: the pointer y is adjusted
by the *bottom* margin (the top margin is irrelevant), and the result is
the first record, in layer-iteration and stored record order, whose
category-scale position is at most the adjusted y with distance at most
**twice** the category bandwidth (amended from "the category bandwidth is
the tolerance": the source compares against `epsilon * 2`); no match
returns the explicit `none`. -/
theorem getNearestDataPoint2_spec (layers : List Layer) (yScale : BandFn)
    (m : Margin) (mouseY : ℚ) :
    (getNearestDataPoint2 layers yScale m mouseY
      = (joinValues layers).find? (fun d2 => decide
          (yScale.pos d2.name ≤ mouseY - m.bottom ∧
            mouseY - m.bottom - yScale.pos d2.name ≤ yScale.bandwidth * 2))) ∧
    ((∀ d2 ∈ joinValues layers,
        ¬(yScale.pos d2.name ≤ mouseY - m.bottom ∧
          mouseY - m.bottom - yScale.pos d2.name ≤ yScale.bandwidth * 2)) →
      getNearestDataPoint2 layers yScale m mouseY = none) ∧
    (∀ m2 : Margin, m2.bottom = m.bottom →
      getNearestDataPoint2 layers yScale m2 mouseY
        = getNearestDataPoint2 layers yScale m mouseY) := by
  have hmain : getNearestDataPoint2 layers yScale m mouseY
      = (joinValues layers).find? (fun d2 => decide
          (yScale.pos d2.name ≤ mouseY - m.bottom ∧
            mouseY - m.bottom - yScale.pos d2.name ≤ yScale.bandwidth * 2)) := by
    rw [getNearestDataPoint2]
    rw [show (hitPredH yScale (mouseY - m.bottom) yScale.bandwidth)
        = fun d2 => decide
            (yScale.pos d2.name ≤ mouseY - m.bottom ∧
              mouseY - m.bottom - yScale.pos d2.name ≤ yScale.bandwidth * 2)
        from funext fun d2 => hitPredH_eq _ _ _ d2]
    exact head?_filterMap_find? _ layers
  refine ⟨hmain, ?_, ?_⟩
  · intro hnone
    rw [hmain, List.find?_eq_none]
    intro d2 hd2
    simpa using hnone d2 hd2
  · intro m2 hbottom
    simp only [getNearestDataPoint2, hbottom]

/-- Witness for `getNearestDataPoint2_spec`: a pointer far above every
band yields the explicit no-result. -/
theorem getNearestDataPoint2_spec_witness :
    getNearestDataPoint2 [⟨"A", 0, [⟨"A", "X", 1⟩], []⟩]
        ⟨fun _ => 0, 10⟩ ⟨40, 30, 60, 70⟩ (-100) = none :=
  (getNearestDataPoint2_spec [⟨"A", 0, [⟨"A", "X", 1⟩], []⟩]
      ⟨fun _ => 0, 10⟩ ⟨40, 30, 60, 70⟩ (-100)).2.1 (by
    intro d2 hd2
    have hd2' : d2 = ⟨"A", "X", 1⟩ := by
      simpa [joinValues] using hd2
    subst hd2'
    rintro ⟨h1, _⟩
    norm_num at h1)

/-- A JavaScript value as far as `cleanData` observes one: a number, the
number `NaN`, a string, or `undefined`. -/
inductive JSVal where
  | num (q : ℚ)
  | nan
  | str (s : String)
  | jsUndefined
deriving DecidableEq

/-- A raw input row: a string-keyed object, `jsUndefined` for absent keys. -/
abbrev Row := String → JSVal

/-- The JavaScript unary-plus numeric cast as `cleanData` applies it
(`+d[valueLabel]`): a number is unchanged, `NaN`, `undefined` and
non-numeric strings give `NaN`.  String parsing is modelled for integer
literals via `String.toInt?`; any string it rejects casts to `NaN`. -/
def jsToNumber : JSVal → JSVal
  | .num q => .num q
  | .nan => .nan
  | .str s =>
    match s.toInt? with
    | some n => .num n
    | none => .nan
  | .jsUndefined => .nan

/-- JavaScript property assignment `d[k] = v` on a row. -/
def setField (d : Row) (k : String) (v : JSVal) : Row :=
  fun k2 => if k2 = k then v else d k2

/-- `cleanData`'s per-record mutation (source lines 383-391), performed
in source statement order: `d.value = +d[valueLabel]`, `d.group =
d[groupLabel]`, `d.topicName = d[groupLabel]`, `d.name = d[nameLabel]`;
every other property of the record is kept. -/
def cleanRow (nameLabel valueLabel groupLabel : String) (d : Row) : Row :=
  let d1 := setField d "value" (jsToNumber (d valueLabel))
  let d2 := setField d1 "group" (d1 groupLabel)
  let d3 := setField d2 "topicName" (d2 groupLabel)
  setField d3 "name" (d3 nameLabel)

/-- `cleanData` (source lines 382-393): `reduce((acc, d) => ...
[...acc, d], [])` — each mutated record is appended in order. -/
def cleanData (nameLabel valueLabel groupLabel : String) (rows : List Row) : List Row :=
  rows.foldl (fun acc d => acc ++ [cleanRow nameLabel valueLabel groupLabel d]) []

lemma foldl_append_singleton {α β : Type} (f : α → β) (rows : List α) (acc : List β) :
    rows.foldl (fun acc d => acc ++ [f d]) acc = acc ++ rows.map f := by
  induction rows generalizing acc with
  | nil => simp
  | cons r rows ih => simp [ih]

lemma cleanData_eq_map (nl vl gl : String) (rows : List Row) :
    cleanData nl vl gl rows = rows.map (cleanRow nl vl gl) := by
  rw [cleanData, foldl_append_singleton]
  rfl

/-- **C6** — the normalizer emits exactly one record per input record in
the same order; each output's `value` is the numeric cast of the
configured value field of the input (non-numeric casts to `NaN`, nothing
is rejected or dropped), its `group`/`name` are copied from the
configured source fields (stated under the side conditions that the
configured labels do not collide with the fields `cleanData` itself
writes first — the in-place mutation makes later reads see those
writes), and every other property is kept. -/
theorem cleanData_spec (nl vl gl : String) (rows : List Row) :
    (cleanData nl vl gl rows).length = rows.length ∧
    (∀ (i : ℕ) (row : Row), rows[i]? = some row →
      (cleanData nl vl gl rows)[i]? = some (cleanRow nl vl gl row) ∧
      cleanRow nl vl gl row "value" = jsToNumber (row vl) ∧
      (gl ≠ "value" → cleanRow nl vl gl row "group" = row gl) ∧
      (nl ≠ "value" → nl ≠ "group" → nl ≠ "topicName" →
        cleanRow nl vl gl row "name" = row nl) ∧
      (∀ k, k ≠ "value" → k ≠ "group" → k ≠ "topicName" → k ≠ "name" →
        cleanRow nl vl gl row k = row k)) ∧
    (∀ v : JSVal, (∃ q, jsToNumber v = .num q) ∨ jsToNumber v = .nan) := by
  refine ⟨?_, ?_, ?_⟩
  · rw [cleanData_eq_map, List.length_map]
  · intro i row hrow
    refine ⟨?_, ?_, ?_, ?_, ?_⟩
    · rw [cleanData_eq_map, List.getElem?_map, hrow, Option.map_some']
    · simp [cleanRow, setField]
    · intro hgl
      simp [cleanRow, setField, hgl]
    · intro h1 h2 h3
      simp [cleanRow, setField, h1, h2, h3]
    · intro k hk1 hk2 hk3 hk4
      simp [cleanRow, setField, hk1, hk2, hk3, hk4]
  · intro v
    cases v with
    | num q => exact .inl ⟨q, rfl⟩
    | nan => exact .inr rfl
    | str s =>
      rw [jsToNumber]
      cases s.toInt? with
      | none => exact .inr rfl
      | some n => exact .inl ⟨n, rfl⟩
    | jsUndefined => exact .inr rfl

/-- An example raw row for the witness. -/
def exRow : Row := fun k =>
  if k = "value" then .str "7"
  else if k = "group" then .str "G"
  else if k = "name" then .str "N"
  else .jsUndefined

/-- Witness for `cleanData_spec` at the default field labels. -/
theorem cleanData_spec_witness :
    (cleanData "name" "value" "group" [exRow])[0]? = some (cleanRow "name" "value" "group" exRow) ∧
      cleanRow "name" "value" "group" exRow "group" = exRow "group" ∧
      cleanRow "name" "value" "group" exRow "name" = exRow "name" := by
  have h := (cleanData_spec "name" "value" "group" [exRow]).2.1 0 exRow rfl
  exact ⟨h.1, h.2.2.1 (by decide), h.2.2.2.1 (by decide) (by decide) (by decide)⟩

/-- A d3 band scale as `buildScales` configures one: the (deduplicated)
domain, the range bounds in the given order, the single padding ratio
(`.padding(p)` sets both inner and outer padding to `p`), and the
rounding flag (`rangeRound` sets it). -/
structure BandConfig where
  domain : List String
  r0 : ℚ
  r1 : ℚ
  padding : ℚ
  rounded : Bool
deriving DecidableEq

/-- The d3-scale band step:
`(stop - start) / max(1, n - paddingInner + paddingOuter * 2)`, floored
when rounding. -/
def BandConfig.step (c : BandConfig) : ℚ :=
  let n : ℚ := c.domain.length
  let pInner := min 1 c.padding
  let pOuter := c.padding
  let start := if c.r1 < c.r0 then c.r1 else c.r0
  let stop := if c.r1 < c.r0 then c.r0 else c.r1
  let s := (stop - start) / max 1 (n - pInner + pOuter * 2)
  if c.rounded then (⌊s⌋ : ℚ) else s

/-- The d3-scale bandwidth: `step * (1 - paddingInner)`, rounded when
rounding. -/
def BandConfig.bandwidth (c : BandConfig) : ℚ :=
  let pInner := min 1 c.padding
  let bw := c.step * (1 - pInner)
  if c.rounded then (round bw : ℚ) else bw

/-- The vertical branch of `buildScales` (source lines 320-334): the
category scale `xScale` over the names, `rangeRound([0, chartWidth])`,
`.padding(betweenGroupsPadding)`; the group sub-scale `xScale2` over the
groups, `rangeRound([0, xScale.bandwidth()])`,
`.padding(betweenGroupsPadding)`.  Note that this branch passes
`betweenGroupsPadding` to **both** scales and never reads
`betweenBarsPadding`. -/
def buildScalesVertical (data : List Record) (chartWidth : ℚ)
    (betweenBarsPadding betweenGroupsPadding : ℚ) : BandConfig × BandConfig :=
  let xScale : BandConfig :=
    { domain := uniq (data.map Record.name), r0 := 0, r1 := chartWidth,
      padding := betweenGroupsPadding, rounded := true }
  let xScale2 : BandConfig :=
    { domain := uniq (data.map Record.group), r0 := 0, r1 := xScale.bandwidth,
      padding := betweenGroupsPadding, rounded := true }
  (xScale, xScale2)

/-- The horizontal branch of `buildScales` (source lines 305-319): the
category scale `yScale` over the names, `rangeRound([chartHeight, 0])`,
`.padding(betweenGroupsPadding)`; the group sub-scale `yScale2` over the
groups, `rangeRound([yScale.bandwidth(), 0])`,
`.padding(betweenBarsPadding)`. -/
def buildScalesHorizontal (data : List Record) (chartHeight : ℚ)
    (betweenBarsPadding betweenGroupsPadding : ℚ) : BandConfig × BandConfig :=
  let yScale : BandConfig :=
    { domain := uniq (data.map Record.name), r0 := chartHeight, r1 := 0,
      padding := betweenGroupsPadding, rounded := true }
  let yScale2 : BandConfig :=
    { domain := uniq (data.map Record.group), r0 := yScale.bandwidth, r1 := 0,
      padding := betweenBarsPadding, rounded := true }
  (yScale, yScale2)

/-- **C8 counterexample** — with `betweenBarsPadding = 3/10` and
`betweenGroupsPadding = 1/10`, the vertical branch builds **both** band
scales with padding `1/10`: neither vertical scale is governed by
`betweenBarsPadding`, so the two configured ratios are not applied
independently to the category scale and the group sub-scale (whichever
of the two ratios is read as "between categories"). -/
theorem buildScales_padding_counterexample :
    (buildScalesVertical exData 860 (3/10) (1/10)).1.padding = 1/10 ∧
      (buildScalesVertical exData 860 (3/10) (1/10)).2.padding = 1/10 ∧
      ¬((buildScalesVertical exData 860 (3/10) (1/10)).1.padding = 3/10 ∨
        (buildScalesVertical exData 860 (3/10) (1/10)).2.padding = 3/10) := by
  refine ⟨rfl, rfl, ?_⟩
  rintro (h | h) <;> norm_num [buildScalesVertical] at h

/-- **C8 (amended)** — the horizontal branch builds the category band
scale with `betweenGroupsPadding` and the group sub-band scale with
`betweenBarsPadding`, each ratio reaching only its own scale; the
vertical branch, however, builds **both** scales with
`betweenGroupsPadding`, and `betweenBarsPadding` has no effect on the
vertical scales.  In both branches the sub-scale's range is bounded by
the category scale's bandwidth, computed by the standard d3 band-scale
padding algorithm — concretely, on the example dataset (2 categories, 2
groups) with chart width 860 and both ratios as in the counterexample,
the category bandwidth is `round(floor(860 / (2 - 0.1 + 0.2)) * 0.9) =
368` and the sub-band bandwidth `round(floor(368 / 2.1) * 0.9) = 158`. -/
theorem buildScales_padding_spec :
    (∀ (data : List Record) (cw ch bb bg : ℚ),
      (buildScalesVertical data cw bb bg).1.padding = bg ∧
      (buildScalesVertical data cw bb bg).2.padding = bg ∧
      (buildScalesHorizontal data ch bb bg).1.padding = bg ∧
      (buildScalesHorizontal data ch bb bg).2.padding = bb ∧
      (buildScalesVertical data cw bb bg).2.r1
        = (buildScalesVertical data cw bb bg).1.bandwidth ∧
      (buildScalesHorizontal data ch bb bg).2.r0
        = (buildScalesHorizontal data ch bb bg).1.bandwidth ∧
      (∀ bb2 : ℚ, buildScalesVertical data cw bb2 bg = buildScalesVertical data cw bb bg) ∧
      (∀ bb2 : ℚ, (buildScalesHorizontal data ch bb2 bg).1
        = (buildScalesHorizontal data ch bb bg).1) ∧
      (∀ bg2 : ℚ, (buildScalesHorizontal data ch bb bg2).2.padding
        = (buildScalesHorizontal data ch bb bg).2.padding)) ∧
    (buildScalesVertical exData 860 (3/10) (1/10)).1.bandwidth = 368 ∧
    (buildScalesVertical exData 860 (3/10) (1/10)).2.r1 = 368 ∧
    (buildScalesVertical exData 860 (3/10) (1/10)).2.bandwidth = 158 := by
  have hcat : (buildScalesVertical exData 860 (3/10) (1/10)).1
      = BandConfig.mk ["A", "B"] 0 860 (1/10) true := rfl
  have hcatStep : (BandConfig.mk ["A", "B"] 0 860 (1/10) true).step = 409 := by
    rw [BandConfig.step]
    norm_num [min_def, max_def, Int.floor_eq_iff]
  have hcatBw : (buildScalesVertical exData 860 (3/10) (1/10)).1.bandwidth = 368 := by
    rw [hcat, BandConfig.bandwidth, hcatStep]
    norm_num [min_def, round_eq, Int.floor_eq_iff]
  have hsub : (buildScalesVertical exData 860 (3/10) (1/10)).2
      = BandConfig.mk ["X", "Y"] 0
          ((buildScalesVertical exData 860 (3/10) (1/10)).1.bandwidth) (1/10) true := rfl
  have hsubBw : (buildScalesVertical exData 860 (3/10) (1/10)).2.bandwidth = 158 := by
    rw [hsub, hcatBw]
    have hsubStep : (BandConfig.mk ["X", "Y"] 0 368 (1/10) true).step = 175 := by
      rw [BandConfig.step]
      norm_num [min_def, max_def, Int.floor_eq_iff]
    rw [BandConfig.bandwidth, hsubStep]
    norm_num [min_def, round_eq, Int.floor_eq_iff]
  refine ⟨fun data cw ch bb bg =>
      ⟨rfl, rfl, rfl, rfl, rfl, rfl, fun _ => rfl, fun _ => rfl, fun _ => rfl⟩,
    hcatBw, ?_, hsubBw⟩
  rw [hsub, hcatBw]

/-- A color, as a CSS color string. -/
abbrev Color := String

/-- The cached name→color mapping (a JavaScript object). -/
abbrev ColorMap := List (String × Color)

/-- A d3 ordinal scale with the default implicit-domain behavior: a known
key maps to `range[index % range.length]`; an unknown key is appended to
the domain first. -/
structure OrdinalScale where
  range : List Color
  domain : List String

/-- `colorScale(key)` — d3 ordinal lookup, returning the color and the
(possibly grown) scale. -/
def OrdinalScale.call (s : OrdinalScale) (k : String) : Color × OrdinalScale :=
  if k ∈ s.domain then
    (s.range.getD (s.domain.indexOf k % s.range.length) "", s)
  else
    let d := s.domain ++ [k]
    (s.range.getD ((d.length - 1) % s.range.length) "", { s with domain := d })

/-- The derived name→color map (source lines 336-353): build the ordinal
`colorScale` with range `colorSchema` and domain the groups; re-set its
domain to the names (d3's ordinal domain setter deduplicates, keeping
first-seen order); then reduce over those names and, for each record
with a matching name, assign `memo[group] = colorScale(group)` — the
implicit-domain lookup growing the scale's domain as new groups are
queried. -/
def deriveColorMap (colorSchema : List Color) (data : List Record) : ColorMap :=
  let cs1 : OrdinalScale :=
    { range := colorSchema, domain := uniq (data.map Record.name) }
  (cs1.domain.foldl
    (fun st item =>
      data.foldl
        (fun st r =>
          if r.name == item then
            let c := st.2.call r.group
            (objUpsert st.1 r.group c.1, c.2)
          else st)
        st)
    (([] : ColorMap), cs1)).1

/-- One render's color-map update (source lines 340-353):
`nameToColorMap = nameToColorMap || derived` — a present (truthy) map is
kept verbatim; only a missing (`null`) map is replaced by the freshly
derived one. -/
def colorMapAfterBuild (cur : Option ColorMap) (colorSchema : List Color)
    (data : List Record) : Option ColorMap :=
  match cur with
  | some m => some m
  | none => some (deriveColorMap colorSchema data)

lemma colorMap_foldl_some (schema : List Color) (m : ColorMap)
    (ds : List (List Record)) :
    ds.foldl (fun st d => colorMapAfterBuild st schema d) (some m) = some m := by
  induction ds with
  | nil => rfl
  | cons d ds ih => rw [List.foldl_cons]; exact ih

/-- **C9** — an explicit color-map override supplied before a render is
used verbatim and is never recomputed or modified on that render or any
sequence of later renders, until explicitly replaced; only when no map
is present is a name→color map derived from the data — and the map a
first render derives is itself cached unchanged through later renders. -/
theorem colorMap_override_spec :
    (∀ (m : ColorMap) (schema : List Color) (data : List Record),
      colorMapAfterBuild (some m) schema data = some m) ∧
    (∀ (m : ColorMap) (schema : List Color) (datas : List (List Record)),
      datas.foldl (fun st d => colorMapAfterBuild st schema d) (some m) = some m) ∧
    (∀ (schema : List Color) (data : List Record),
      colorMapAfterBuild none schema data = some (deriveColorMap schema data)) ∧
    (∀ (schema : List Color) (d : List Record) (ds : List (List Record)),
      (d :: ds).foldl (fun st d2 => colorMapAfterBuild st schema d2) none
        = some (deriveColorMap schema d)) := by
  refine ⟨fun m schema data => rfl, fun m schema datas => colorMap_foldl_some _ _ _,
    fun schema data => rfl, ?_⟩
  intro schema d ds
  rw [List.foldl_cons]
  exact colorMap_foldl_some schema (deriveColorMap schema d) ds

/-- A partial margin argument to the `margin` accessor: each side is
optionally present (`none` models a key absent from the object
literal). -/
structure MarginPatch where
  top : Option ℚ
  right : Option ℚ
  bottom : Option ℚ
  left : Option ℚ
deriving DecidableEq

/-- The `margin` setter (source lines 1101-1111):
`margin = { ...margin, ..._x }` — object spread, so a side present in
the argument overwrites the old value and an absent side keeps it. -/
def marginSetter (old : Margin) (p : MarginPatch) : Margin :=
  { top := p.top.getD old.top
    right := p.right.getD old.right
    bottom := p.bottom.getD old.bottom
    left := p.left.getD old.left }

/-- **C10** — the margin setter merges with the previous margin: any of
top/right/bottom/left absent from the argument keeps its previous value
and any present side is replaced; in particular the empty patch is the
identity and a full patch replaces the margin wholesale. -/
theorem margin_setter_merges (old : Margin) (p : MarginPatch) :
    (p.top = none → (marginSetter old p).top = old.top) ∧
    (∀ v, p.top = some v → (marginSetter old p).top = v) ∧
    (p.right = none → (marginSetter old p).right = old.right) ∧
    (∀ v, p.right = some v → (marginSetter old p).right = v) ∧
    (p.bottom = none → (marginSetter old p).bottom = old.bottom) ∧
    (∀ v, p.bottom = some v → (marginSetter old p).bottom = v) ∧
    (p.left = none → (marginSetter old p).left = old.left) ∧
    (∀ v, p.left = some v → (marginSetter old p).left = v) ∧
    marginSetter old ⟨none, none, none, none⟩ = old ∧
    (∀ t r b l, marginSetter old ⟨some t, some r, some b, some l⟩ = ⟨t, r, b, l⟩) :=
  ⟨fun h => by simp [marginSetter, h], fun v h => by simp [marginSetter, h],
   fun h => by simp [marginSetter, h], fun v h => by simp [marginSetter, h],
   fun h => by simp [marginSetter, h], fun v h => by simp [marginSetter, h],
   fun h => by simp [marginSetter, h], fun v h => by simp [marginSetter, h],
   rfl, fun t r b l => rfl⟩

/-- Witness for `margin_setter_merges`: patching only `left` on the
default margin keeps top/right/bottom and replaces left. -/
theorem margin_setter_merges_witness :
    (marginSetter ⟨40, 30, 60, 70⟩ ⟨none, none, none, some 10⟩).top = 40 ∧
      (marginSetter ⟨40, 30, 60, 70⟩ ⟨none, none, none, some 10⟩).left = 10 :=
  ⟨(margin_setter_merges ⟨40, 30, 60, 70⟩ ⟨none, none, none, some 10⟩).1 rfl,
   (margin_setter_merges ⟨40, 30, 60, 70⟩ ⟨none, none, none, some 10⟩).2.2.2.2.2.2.2.1 10 rfl⟩

end GroupedBar
